import Mathlib

/-!
Verification development for PolyM (`src/include/polym/Queue.hpp`), an
in-process thread-safe message queue supporting fire-and-forget delivery
(`put`/`get`/`tryGet`) and synchronous request-response
(`request`/`respondTo`).

The repository ships only the header `Queue.hpp`: the struct `Request`
(lines 10-16) and the declarations and documentation of `Queue` and
`CircularQueue`.  The method bodies (`Queue.cpp`), the storage container
`circular_q.hpp` and the message type `Msg.hpp` are not in the sources,
so every operation below is modelled from the specification's contract,
as its doc comment records; the `Request` struct itself is embedded from
the source.

All mutex-guarded operations of the queue are atomic critical sections,
so concurrent executions are interleavings of atomic operations; we model
them as functions on an explicit queue state and treat a concurrent
history as a sequence of such atomic steps.
-/

namespace PolyM

/-- Modelled from the spec: `Msg.hpp` is not in the sources.  A message
is an opaque owned unit of data carrying a unique identifier (`MsgUID`)
retrievable without mutation (spec sections 3 and 6). -/
structure Msg where
  uid : Nat
  payload : Nat
deriving DecidableEq, Repr

/-- The wait record of `Queue.hpp` lines 10-16: `struct Request` holds a
`std::unique_ptr<Msg> response` (null after default construction) and one
`std::condition_variable condVar`.  The condition variable is embedded as
the boolean wake state `signaled`. -/
structure Request where
  response : Option Msg
  signaled : Bool
deriving DecidableEq, Repr

/-- `Request()` default-constructs: the `unique_ptr` response slot is
null and the condition variable has not been notified. -/
def Request.fresh : Request :=
  { response := none, signaled := false }

/-- Attaching a response to a wait record and notifying its condition
variable, as `respondTo` does on a found record. -/
def Request.fulfill (m : Msg) : Request :=
  { response := some m, signaled := true }

/-- The correlator table `responseMap_` (an `std::unordered_map<MsgUID,
Request*>`), embedded as an association list from UID to record. -/
abbrev ResponseMap := List (Nat × Request)

/-- Does the table hold an entry for `uid`? (`unordered_map::find` hit). -/
def mapContains : ResponseMap → Nat → Bool
  | [], _ => false
  | p :: rest, uid => if p.1 = uid then true else mapContains rest uid

/-- The record stored under `uid`, if any. -/
def mapFind : ResponseMap → Nat → Option Request
  | [], _ => none
  | p :: rest, uid => if p.1 = uid then some p.2 else mapFind rest uid

/-- Replace the record stored under `uid` (in-place mutation through the
stored `Request*`). -/
def mapSet : ResponseMap → Nat → Request → ResponseMap
  | [], _, _ => []
  | p :: rest, uid, r =>
      (if p.1 = uid then (p.1, r) else p) :: mapSet rest uid r

/-- Remove every entry stored under `uid` (`unordered_map::erase`). -/
def mapErase : ResponseMap → Nat → ResponseMap
  | [], _ => []
  | p :: rest, uid =>
      if p.1 = uid then mapErase rest uid else p :: mapErase rest uid

/-- How many entries the table holds for `uid`. -/
def mapCount : ResponseMap → Nat → Nat
  | [], _ => 0
  | p :: rest, uid =>
      (if p.1 = uid then 1 else 0) + mapCount rest uid


/-- The state of a `CircularQueue` (`Queue.hpp` lines 78-145): the FIFO
storage `queue_` (a `circular_q<std::unique_ptr<Msg>>` of fixed capacity
`max_items`, embedded as a list whose head is the queue front) and the
correlator table `responseMap_`.  The mutexes and condition variables
make each operation an atomic critical section and are therefore not
part of the state. -/
structure CircularQueue where
  capacity : Nat
  storage : List Msg
  responseMap : ResponseMap
deriving DecidableEq, Repr

/-- Modelled from the spec: the body of `CircularQueue::CircularQueue
(size_t max_items)` is not in the sources.  Spec sections 6 and 7:
construction with zero capacity is rejected (fail fast) rather than
producing a queue that can never accept an item; otherwise the queue
starts empty with the given capacity. -/
def CircularQueue.create (max_items : Nat) : Option CircularQueue :=
  if max_items = 0 then none
  else some { capacity := max_items, storage := [], responseMap := [] }

/-- Modelled from the spec: the body of `CircularQueue::put` is not in
the sources.  Spec section 4.1: `put(msg)` transfers `msg` to the tail
of storage; if storage is at capacity the caller blocks (indefinitely)
until space frees.  `none` means the call blocks in this state (the
mutation has not happened yet); `some` is the state after the
insertion. -/
def CircularQueue.put (q : CircularQueue) (m : Msg) : Option CircularQueue :=
  if q.storage.length < q.capacity then
    some { q with storage := q.storage ++ [m] }
  else
    none

/-- Modelled from the spec: the body of `CircularQueue::tryGet` is not
in the sources.  Spec sections 4.1 and 6: non-blocking; returns
immediately with an absent result if storage is empty, otherwise removes
and returns the head message. -/
def CircularQueue.tryGet (q : CircularQueue) : Option Msg × CircularQueue :=
  match q.storage with
  | [] => (none, q)
  | m :: rest => (some m, { q with storage := rest })

/-- Modelled from the spec: the body of `CircularQueue::get` is not in
the sources.  Spec section 4.1: `get(timeoutMillis)` blocks until
storage is non-empty or the timeout elapses (`0` = indefinitely).  We
model the call at the instant it stops waiting: if storage is non-empty
it removes and returns the head message; otherwise (the timeout
genuinely elapsed with storage still empty) it returns an absent result,
never an error.  The real-time duration of the wait is outside the
model. -/
def CircularQueue.get (q : CircularQueue) : Option Msg × CircularQueue :=
  match q.storage with
  | [] => (none, q)
  | m :: rest => (some m, { q with storage := rest })

/-- Modelled from the spec: the body of `CircularQueue::respondTo` is
not in the sources.  Spec section 4.2: look `reqUid` up in the
correlator table; if found, attach `responseMsg` to the wait record,
notify that record's own condition variable, and return `true`; if not
found, return `false`, drop the response, and change nothing. -/
def CircularQueue.respondTo (q : CircularQueue) (reqUid : Nat) (responseMsg : Msg) :
    Bool × CircularQueue :=
  if mapContains q.responseMap reqUid then
    (true,
     { q with responseMap := mapSet q.responseMap reqUid (Request.fulfill responseMsg) })
  else
    (false, q)

/-- Modelled from the spec: the body of `CircularQueue::request` is not
in the sources.  Spec section 4.2: `request(msg, timeoutMillis)` is
`put(msg)` followed by registering a fresh wait record under `msg`'s
unique ID; the caller then blocks on that record's own condition
variable.  This is the prefix of the call up to the block: `none` if the
`put` itself blocks in this state, otherwise the state after enqueueing
and registering. -/
def CircularQueue.requestBegin (q : CircularQueue) (m : Msg) : Option CircularQueue :=
  (q.put m).map fun q1 =>
    { q1 with responseMap := q1.responseMap ++ [(m.uid, Request.fresh)] }

/-- Modelled from the spec: the suffix of `CircularQueue::request` after
the caller wakes (response attached by `respondTo`) or its timeout
elapses: read the wait record's response slot (empty on the timeout
path, so an absent result is returned), and remove the record from the
correlator table unconditionally before returning, on every exit
path. -/
def CircularQueue.requestEnd (q : CircularQueue) (uid : Nat) :
    Option Msg × CircularQueue :=
  (match mapFind q.responseMap uid with
   | some r => r.response
   | none => none,
   { q with responseMap := mapErase q.responseMap uid })

/-- One atomic critical section of the queue, for interleaving concurrent
histories.  A blocked `put` (or the `put` inside `request`) has not
mutated anything yet, so it leaves the state unchanged. -/
inductive Event where
  | putE : Msg → Event
  | getE : Event
  | tryGetE : Event
  | requestBeginE : Msg → Event
  | requestEndE : Nat → Event
  | respondToE : Nat → Msg → Event
deriving DecidableEq, Repr

/-- Effect of one atomic step on the queue state. -/
def step (q : CircularQueue) : Event → CircularQueue
  | .putE m =>
      match q.put m with
      | some q' => q'
      | none => q
  | .getE => (q.get).2
  | .tryGetE => (q.tryGet).2
  | .requestBeginE m =>
      match q.requestBegin m with
      | some q' => q'
      | none => q
  | .requestEndE u => (q.requestEnd u).2
  | .respondToE u m => (q.respondTo u m).2

/-- A concurrent history: the queue state after a sequence of atomic
steps. -/
def run (q : CircularQueue) (es : List Event) : CircularQueue :=
  es.foldl step q

/-- `put` all of `ms` in order, with no intervening `get`; `some` only
when none of the calls blocks. -/
def putList (q : CircularQueue) : List Msg → Option CircularQueue
  | [] => some q
  | m :: rest => (q.put m).bind fun q1 => putList q1 rest

/-- The messages returned by `n` successive successful `get`/`tryGet`
calls. -/
def drain (q : CircularQueue) : Nat → List Msg × CircularQueue
  | 0 => ([], q)
  | n + 1 =>
      match q.tryGet with
      | (some m, q1) =>
          let p := drain q1 n
          (m :: p.1, p.2)
      | (none, q1) => ([], q1)

theorem mapFind_append_self (m : ResponseMap) (uid : Nat) (r : Request)
    (h : mapContains m uid = false) :
    mapFind (m ++ [(uid, r)]) uid = some r := by
  induction m with
  | nil => simp [mapFind]
  | cons p rest ih =>
      simp only [mapContains] at h
      by_cases hp : p.1 = uid
      · simp [hp] at h
      · simp only [List.cons_append, mapFind, if_neg hp]
        exact ih (by simpa [hp] using h)

theorem mapContains_append_self (m : ResponseMap) (uid : Nat) (r : Request) :
    mapContains (m ++ [(uid, r)]) uid = true := by
  induction m with
  | nil => simp [mapContains]
  | cons p rest ih =>
      by_cases hp : p.1 = uid <;> simp [mapContains, hp, ih]

theorem mapFind_append_ne (m : ResponseMap) (uid u' : Nat) (r : Request)
    (h : u' ≠ uid) :
    mapFind (m ++ [(uid, r)]) u' = mapFind m u' := by
  have h' : uid ≠ u' := Ne.symm h
  induction m with
  | nil => simp [mapFind, h']
  | cons p rest ih =>
      by_cases hp : p.1 = u' <;> simp [mapFind, hp, ih]

theorem mapFind_mapSet_self (m : ResponseMap) (uid : Nat) (r : Request)
    (h : mapContains m uid = true) :
    mapFind (mapSet m uid r) uid = some r := by
  induction m with
  | nil => simp [mapContains] at h
  | cons p rest ih =>
      by_cases hp : p.1 = uid
      · simp [mapSet, mapFind, hp]
      · simp only [mapContains, if_neg hp] at h
        simp [mapSet, mapFind, hp, ih h]

theorem mapFind_mapSet_ne (m : ResponseMap) (uid u' : Nat) (r : Request)
    (h : u' ≠ uid) :
    mapFind (mapSet m uid r) u' = mapFind m u' := by
  have h' : uid ≠ u' := Ne.symm h
  induction m with
  | nil => simp [mapSet]
  | cons p rest ih =>
      by_cases hp : p.1 = uid
      · simp [mapSet, mapFind, hp, h', ih]
      · by_cases hq : p.1 = u' <;> simp [mapSet, mapFind, hp, hq, h, h', ih]

theorem mapContains_mapSet (m : ResponseMap) (uid u' : Nat) (r : Request) :
    mapContains (mapSet m uid r) u' = mapContains m u' := by
  induction m with
  | nil => simp [mapSet]
  | cons p rest ih =>
      by_cases hp : p.1 = uid
      · by_cases hq : p.1 = u' <;>
          simp [mapSet, mapContains, hp, hp ▸ hq, hq, ih]
      · simp [mapSet, mapContains, hp, ih]

theorem mapContains_mapErase_self (m : ResponseMap) (uid : Nat) :
    mapContains (mapErase m uid) uid = false := by
  induction m with
  | nil => simp [mapErase, mapContains]
  | cons p rest ih =>
      by_cases hp : p.1 = uid <;> simp [mapErase, mapContains, hp, ih]

theorem mapFind_mapErase_ne (m : ResponseMap) (uid u' : Nat)
    (h : u' ≠ uid) :
    mapFind (mapErase m uid) u' = mapFind m u' := by
  have h' : uid ≠ u' := Ne.symm h
  induction m with
  | nil => simp [mapErase]
  | cons p rest ih =>
      by_cases hp : p.1 = uid
      · simp [mapErase, mapFind, hp, h', ih]
      · by_cases hq : p.1 = u' <;> simp [mapErase, mapFind, hp, hq, h, h', ih]

theorem mapCount_append_self (m : ResponseMap) (uid : Nat) (r : Request) :
    mapCount (m ++ [(uid, r)]) uid = mapCount m uid + 1 := by
  induction m with
  | nil => simp [mapCount]
  | cons p rest ih =>
      by_cases hp : p.1 = uid
      · simp [mapCount, hp, ih]; omega
      · simp [mapCount, hp, ih]

theorem mapCount_eq_zero_of_not_contains (m : ResponseMap) (uid : Nat)
    (h : mapContains m uid = false) :
    mapCount m uid = 0 := by
  induction m with
  | nil => simp [mapCount]
  | cons p rest ih =>
      simp only [mapContains] at h
      by_cases hp : p.1 = uid
      · simp [hp] at h
      · simp only [mapCount, if_neg hp]
        have := ih (by simpa [hp] using h)
        omega

theorem mapCount_mapSet (m : ResponseMap) (uid : Nat) (r : Request) :
    mapCount (mapSet m uid r) uid = mapCount m uid := by
  induction m with
  | nil => simp [mapSet]
  | cons p rest ih =>
      by_cases hp : p.1 = uid <;> simp [mapSet, mapCount, hp, ih]

theorem mapCount_mapErase_self (m : ResponseMap) (uid : Nat) :
    mapCount (mapErase m uid) uid = 0 := by
  induction m with
  | nil => simp [mapErase, mapCount]
  | cons p rest ih =>
      by_cases hp : p.1 = uid <;> simp [mapErase, mapCount, hp, ih]

/-- Claim C8: `tryGet()` never blocks: it returns immediately with an
absent result when storage is empty, and otherwise removes and returns
the head message, for every state of the queue. -/
theorem claim_C8_tryGet_nonblocking (q : CircularQueue) :
    (q.storage = [] → q.tryGet = (none, q)) ∧
    (∀ m rest, q.storage = m :: rest →
      q.tryGet = (some m, { q with storage := rest })) := by
  constructor
  · intro h
    simp [CircularQueue.tryGet, h]
  · intro m rest h
    simp [CircularQueue.tryGet, h]

theorem claim_C8_tryGet_nonblocking_witness :
    ({ capacity := 2, storage := [{ uid := 1, payload := 10 }],
       responseMap := [] } : CircularQueue).tryGet
      = (some { uid := 1, payload := 10 },
         { capacity := 2, storage := [], responseMap := [] }) :=
  (claim_C8_tryGet_nonblocking _).2 { uid := 1, payload := 10 } [] rfl

/-- Claim C4: `get(timeoutMillis)` blocks until storage is non-empty or
the timeout elapses (0 = wait indefinitely); when it returns because the
timeout elapsed (storage still empty) it returns an absent result
(`nullptr`), never a thrown error, and when a message is available it
removes and returns the head message, transferring ownership to the
caller.  The call is modelled at the instant it stops waiting. -/
theorem claim_C4_get_timeout_or_head (q : CircularQueue) :
    (q.storage = [] → q.get = (none, q)) ∧
    (∀ m rest, q.storage = m :: rest →
      q.get = (some m, { q with storage := rest })) := by
  constructor
  · intro h
    simp [CircularQueue.get, h]
  · intro m rest h
    simp [CircularQueue.get, h]

theorem claim_C4_get_timeout_or_head_witness :
    ({ capacity := 2, storage := [], responseMap := [] } : CircularQueue).get
      = (none, { capacity := 2, storage := [], responseMap := [] }) :=
  (claim_C4_get_timeout_or_head _).1 rfl

/-- Claim C9: constructing the bounded variant with zero capacity fails
fast at construction; any positive capacity yields an empty queue of
that capacity. -/
theorem claim_C9_zero_capacity_rejected :
    CircularQueue.create 0 = none ∧
    ∀ c : Nat, 0 < c →
      CircularQueue.create c
        = some { capacity := c, storage := [], responseMap := [] } := by
  constructor
  · rfl
  · intro c hc
    rw [CircularQueue.create, if_neg (by omega)]

theorem claim_C9_zero_capacity_rejected_witness :
    CircularQueue.create 2
      = some { capacity := 2, storage := [], responseMap := [] } :=
  claim_C9_zero_capacity_rejected.2 2 (by decide)

/-- Claim C10: a freshly constructed wait record (`Request`, `Queue.hpp`
lines 10-16) has an empty response slot (null `unique_ptr`) and its one
condition variable not yet notified; the slot holds at most one message,
so fulfilling a request delivers a single response. -/
theorem claim_C10_fresh_request_record :
    Request.fresh.response = none ∧
    Request.fresh.signaled = false ∧
    (∀ m : Msg,
      (Request.fulfill m).response = some m ∧ (Request.fulfill m).signaled = true) ∧
    (∀ (r : Request) (m m' : Msg),
      r.response = some m → r.response = some m' → m = m') := by
  refine ⟨rfl, rfl, fun m => ⟨rfl, rfl⟩, ?_⟩
  intro r m m' h1 h2
  rw [h1] at h2
  exact Option.some_injective _ h2

theorem claim_C10_fresh_request_record_witness :
    Request.fresh.response = none ∧
    ({ uid := 1, payload := 1 } : Msg) = { uid := 1, payload := 1 } :=
  ⟨claim_C10_fresh_request_record.1,
   claim_C10_fresh_request_record.2.2.2
     (Request.fulfill { uid := 1, payload := 1 })
     { uid := 1, payload := 1 } { uid := 1, payload := 1 } rfl rfl⟩

/-- Claim C3: `respondTo(reqUid, responseMsg)` returns `true` iff a wait
record for `reqUid` is in the correlator table at the time of the call
(attaching the response and waking that waiter); with no such record it
returns `false` and modifies nothing, so a second `respondTo` with the
same ID after the request has returned yields `false` and leaves the
state intact. -/
theorem claim_C3_respondTo_iff_registered (q : CircularQueue) (u : Nat) (r : Msg) :
    ((q.respondTo u r).1 = true ↔ mapContains q.responseMap u = true) ∧
    (mapContains q.responseMap u = false → q.respondTo u r = (false, q)) ∧
    (mapContains q.responseMap u = true →
      mapFind (q.respondTo u r).2.responseMap u = some (Request.fulfill r)) ∧
    ((q.requestEnd u).2.respondTo u r = (false, (q.requestEnd u).2)) := by
  refine ⟨?_, ?_, ?_, ?_⟩
  · by_cases hc : mapContains q.responseMap u = true <;>
      simp [CircularQueue.respondTo, hc]
  · intro hc
    simp [CircularQueue.respondTo, hc]
  · intro hc
    simp [CircularQueue.respondTo, hc, mapFind_mapSet_self _ _ _ hc]
  · have he : mapContains (q.requestEnd u).2.responseMap u = false := by
      simp [CircularQueue.requestEnd, mapContains_mapErase_self]
    simp [CircularQueue.respondTo, he]

theorem claim_C3_respondTo_iff_registered_witness :
    mapFind (({ capacity := 1, storage := [], responseMap := [(5, Request.fresh)] } : CircularQueue).respondTo 5 { uid := 9, payload := 9 }).2.responseMap 5
      = some (Request.fulfill { uid := 9, payload := 9 }) ∧
    ({ capacity := 1, storage := [], responseMap := [] } : CircularQueue).respondTo 5 { uid := 9, payload := 9 }
      = (false, { capacity := 1, storage := [], responseMap := [] }) :=
  ⟨(claim_C3_respondTo_iff_registered _ 5 _).2.2.1 (by decide),
   (claim_C3_respondTo_iff_registered _ 5 _).2.1 (by decide)⟩

theorem requestBegin_some (q q1 : CircularQueue) (m : Msg)
    (h : q.requestBegin m = some q1) :
    q1.capacity = q.capacity ∧
    q1.storage = q.storage ++ [m] ∧
    q1.responseMap = q.responseMap ++ [(m.uid, Request.fresh)] ∧
    q.storage.length < q.capacity := by
  by_cases hlt : q.storage.length < q.capacity
  · rw [CircularQueue.requestBegin, CircularQueue.put, if_pos hlt] at h
    simp only [Option.map_some'] at h
    injection h with h2
    rw [← h2]
    exact ⟨rfl, rfl, rfl, hlt⟩
  · rw [CircularQueue.requestBegin, CircularQueue.put, if_neg hlt] at h
    simp at h

theorem putList_some (ms : List Msg) :
    ∀ q q1 : CircularQueue, putList q ms = some q1 →
      q1.capacity = q.capacity ∧
      q1.storage = q.storage ++ ms ∧
      q1.responseMap = q.responseMap := by
  induction ms with
  | nil =>
      intro q q1 h
      simp [putList] at h
      rw [← h]
      exact ⟨rfl, by simp, rfl⟩
  | cons m rest ih =>
      intro q q1 h
      by_cases hlt : q.storage.length < q.capacity
      · rw [putList, CircularQueue.put, if_pos hlt] at h
        simp only [Option.some_bind] at h
        obtain ⟨hc, hs, hm⟩ := ih _ _ h
        refine ⟨hc, ?_, hm⟩
        rw [hs]
        simp
      · rw [putList, CircularQueue.put, if_neg hlt] at h
        simp at h

theorem drain_eq_storage (ls : List Msg) :
    ∀ q : CircularQueue, q.storage = ls →
      drain q ls.length = (ls, { q with storage := [] }) := by
  induction ls with
  | nil =>
      intro q hq
      cases q
      simp_all [drain]
  | cons m rest ih =>
      intro q hq
      have h2 := ih { q with storage := rest } rfl
      simp [drain, CircularQueue.tryGet, hq, h2]

theorem step_storage_le (q : CircularQueue) (e : Event)
    (h : q.storage.length ≤ q.capacity) :
    (step q e).storage.length ≤ (step q e).capacity := by
  cases e with
  | putE m =>
      by_cases hlt : q.storage.length < q.capacity
      · simp [step, CircularQueue.put, hlt]
        omega
      · simp [step, CircularQueue.put, hlt]
        exact h
  | getE =>
      cases hs : q.storage with
      | nil => simp [step, CircularQueue.get, hs]
      | cons m rest =>
          have h2 : rest.length + 1 ≤ q.capacity := by
            rw [hs] at h
            simpa using h
          simp [step, CircularQueue.get, hs]
          omega
  | tryGetE =>
      cases hs : q.storage with
      | nil => simp [step, CircularQueue.tryGet, hs]
      | cons m rest =>
          have h2 : rest.length + 1 ≤ q.capacity := by
            rw [hs] at h
            simpa using h
          simp [step, CircularQueue.tryGet, hs]
          omega
  | requestBeginE m =>
      by_cases hlt : q.storage.length < q.capacity
      · simp [step, CircularQueue.requestBegin, CircularQueue.put, hlt]
        omega
      · simp [step, CircularQueue.requestBegin, CircularQueue.put, hlt]
        exact h
  | requestEndE u =>
      simp [step, CircularQueue.requestEnd]
      exact h
  | respondToE u m =>
      by_cases hc : mapContains q.responseMap u = true
      · simp [step, CircularQueue.respondTo, hc]
        exact h
      · simp [step, CircularQueue.respondTo, hc]
        exact h

theorem respondTo_of_not_contains (q : CircularQueue) (u : Nat) (r : Msg)
    (h : mapContains q.responseMap u = false) :
    q.respondTo u r = (false, q) := by
  simp [CircularQueue.respondTo, h]

/-- Claim C2: for every sequence of `n` `put` calls with messages
`m1..mn` on an initially empty queue and no intervening `get`, the next
`n` successful `get`/`tryGet` calls return `m1, m2, ..., mn` in exactly
that enqueue order (strict FIFO), leaving the storage empty. -/
theorem claim_C2_fifo_order (q q1 : CircularQueue) (ms : List Msg)
    (hempty : q.storage = [])
    (h : putList q ms = some q1) :
    drain q1 ms.length = (ms, { q1 with storage := [] }) := by
  obtain ⟨hc, hs, hm⟩ := putList_some ms q q1 h
  rw [hempty] at hs
  simp only [List.nil_append] at hs
  exact drain_eq_storage ms q1 hs

theorem claim_C2_fifo_order_witness :
    drain { capacity := 3, storage := [{ uid := 1, payload := 10 }, { uid := 2, payload := 20 }], responseMap := [] } 2
      = ([{ uid := 1, payload := 10 }, { uid := 2, payload := 20 }],
         { capacity := 3, storage := [], responseMap := [] }) :=
  claim_C2_fifo_order { capacity := 3, storage := [], responseMap := [] } _
    [{ uid := 1, payload := 10 }, { uid := 2, payload := 20 }] rfl (by decide)

/-- Claim C5: for a bounded queue of capacity `C` the stored message
count never exceeds `C` along any interleaving of atomic operations;
and in the concrete capacity-2 scenario, `put(A)` and `put(B)` succeed,
`put(C)` blocks, a `get()` returns `A` and frees a slot, after which
`put(C)` succeeds leaving the queue holding `B` then `C` — nothing
dropped or reordered. -/
theorem claim_C5_bounded_capacity :
    (∀ (q : CircularQueue) (es : List Event),
      q.storage.length ≤ q.capacity →
      (run q es).storage.length ≤ (run q es).capacity) ∧
    (∀ A B C : Msg,
      ({ capacity := 2, storage := [], responseMap := [] } : CircularQueue).put A
        = some { capacity := 2, storage := [A], responseMap := [] } ∧
      ({ capacity := 2, storage := [A], responseMap := [] } : CircularQueue).put B
        = some { capacity := 2, storage := [A, B], responseMap := [] } ∧
      ({ capacity := 2, storage := [A, B], responseMap := [] } : CircularQueue).put C
        = none ∧
      ({ capacity := 2, storage := [A, B], responseMap := [] } : CircularQueue).get
        = (some A, { capacity := 2, storage := [B], responseMap := [] }) ∧
      ({ capacity := 2, storage := [B], responseMap := [] } : CircularQueue).put C
        = some { capacity := 2, storage := [B, C], responseMap := [] }) := by
  constructor
  · intro q es
    induction es generalizing q with
    | nil =>
        intro h
        simpa [run] using h
    | cons e rest ih =>
        intro h
        have h1 := ih (step q e) (step_storage_le q e h)
        simpa [run] using h1
  · intro A B C
    refine ⟨?_, ?_, ?_, ?_, ?_⟩ <;>
      simp [CircularQueue.put, CircularQueue.get]

theorem claim_C5_bounded_capacity_witness :
    (run { capacity := 2, storage := [], responseMap := [] }
        [Event.putE { uid := 1, payload := 0 }, Event.putE { uid := 2, payload := 0 },
         Event.putE { uid := 3, payload := 0 }]).storage.length
      ≤ (run { capacity := 2, storage := [], responseMap := [] }
        [Event.putE { uid := 1, payload := 0 }, Event.putE { uid := 2, payload := 0 },
         Event.putE { uid := 3, payload := 0 }]).capacity :=
  claim_C5_bounded_capacity.1 _ _ (by decide)

/-- Claim C6: a correlator-table entry for the request message's unique
ID is inserted when `request` registers (exactly one wait record for the
ID, given the ID is fresh), stays unique while a response is attached,
and is removed unconditionally before `request` returns on both exit
paths (timeout and response). -/
theorem claim_C6_correlator_lifecycle (q q1 : CircularQueue) (m : Msg)
    (hfresh : mapContains q.responseMap m.uid = false)
    (hbegin : q.requestBegin m = some q1) :
    mapCount q1.responseMap m.uid = 1 ∧
    (∀ r : Msg, mapCount ((q1.respondTo m.uid r).2).responseMap m.uid = 1) ∧
    mapCount ((q1.requestEnd m.uid).2).responseMap m.uid = 0 ∧
    (∀ r : Msg,
      mapCount (((q1.respondTo m.uid r).2.requestEnd m.uid).2).responseMap m.uid
        = 0) := by
  obtain ⟨hc, hs, hm, hlt⟩ := requestBegin_some q q1 m hbegin
  have h1 : mapCount q1.responseMap m.uid = 1 := by
    rw [hm, mapCount_append_self, mapCount_eq_zero_of_not_contains _ _ hfresh]
  have hcontains : mapContains q1.responseMap m.uid = true := by
    rw [hm]
    exact mapContains_append_self _ _ _
  refine ⟨h1, ?_, ?_, ?_⟩
  · intro r
    simp [CircularQueue.respondTo, hcontains, mapCount_mapSet, h1]
  · simp [CircularQueue.requestEnd, mapCount_mapErase_self]
  · intro r
    simp [CircularQueue.respondTo, hcontains, CircularQueue.requestEnd,
      mapCount_mapErase_self]

theorem claim_C6_correlator_lifecycle_witness :
    mapCount ({ capacity := 1, storage := [{ uid := 7, payload := 0 }], responseMap := [(7, Request.fresh)] } : CircularQueue).responseMap 7 = 1 :=
  (claim_C6_correlator_lifecycle { capacity := 1, storage := [], responseMap := [] }
    _ { uid := 7, payload := 0 } rfl (by decide)).1

/-- Claim C7: `request(msg, timeoutMillis)` enqueues `msg` into the same
storage as `put` — so the request message is retrievable by
`get`/`tryGet` like a plain message — registers a fresh wait record
(with its own, not-yet-notified condition variable) under `msg`'s unique
ID, and the blocked call then returns an absent result on the timeout
path, or exactly the attached response once a `respondTo` has notified
that record's own signal. -/
theorem claim_C7_request_enqueues_and_blocks (q q1 : CircularQueue) (m : Msg)
    (hfresh : mapContains q.responseMap m.uid = false)
    (hbegin : q.requestBegin m = some q1) :
    (∃ qp, q.put m = some qp ∧ q1.storage = qp.storage) ∧
    q1.storage = q.storage ++ [m] ∧
    (q.storage = [] → q1.tryGet = (some m, { q1 with storage := [] })) ∧
    mapFind q1.responseMap m.uid = some Request.fresh ∧
    (q1.requestEnd m.uid).1 = none ∧
    (∀ r : Msg,
      mapFind ((q1.respondTo m.uid r).2).responseMap m.uid
        = some (Request.fulfill r) ∧
      ((q1.respondTo m.uid r).2.requestEnd m.uid).1 = some r) := by
  obtain ⟨hc, hs, hm, hlt⟩ := requestBegin_some q q1 m hbegin
  have hfind : mapFind q1.responseMap m.uid = some Request.fresh := by
    rw [hm]
    exact mapFind_append_self _ _ _ hfresh
  have hcontains : mapContains q1.responseMap m.uid = true := by
    rw [hm]
    exact mapContains_append_self _ _ _
  refine ⟨⟨{ q with storage := q.storage ++ [m] }, ?_, ?_⟩, hs, ?_, hfind, ?_, ?_⟩
  · rw [CircularQueue.put, if_pos hlt]
  · simpa using hs
  · intro hnil
    have hone : q1.storage = [m] := by
      rw [hs, hnil]
      rfl
    cases q1
    simp_all [CircularQueue.tryGet]
  · simp [CircularQueue.requestEnd, hfind, Request.fresh]
  · intro r
    have hset : mapFind ((q1.respondTo m.uid r).2).responseMap m.uid
        = some (Request.fulfill r) := by
      simp [CircularQueue.respondTo, hcontains, mapFind_mapSet_self _ _ _ hcontains]
    exact ⟨hset, by simp [CircularQueue.requestEnd, hset, Request.fulfill]⟩

theorem claim_C7_request_enqueues_and_blocks_witness :
    ({ capacity := 1, storage := [{ uid := 7, payload := 0 }], responseMap := [(7, Request.fresh)] } : CircularQueue).storage
      = ([] : List Msg) ++ [{ uid := 7, payload := 0 }] :=
  (claim_C7_request_enqueues_and_blocks
    { capacity := 1, storage := [], responseMap := [] } _
    { uid := 7, payload := 0 } rfl (by decide)).2.1

/-- Claim C1: with a request for `m.uid` pending, a concurrent
`respondTo(m.uid, reply)` returns `true` and the request call returns
exactly `reply`; a `respondTo` with an ID not registered returns `false`
and leaves the state — hence the pending request — untouched; the
response is attached only to the record whose ID matches, and once the
request has returned, the same `respondTo` finds nothing (at-most-once
delivery). -/
theorem claim_C1_request_response_correlation (q q1 : CircularQueue) (m reply : Msg)
    (_hfresh : mapContains q.responseMap m.uid = false)
    (hbegin : q.requestBegin m = some q1) :
    ((q1.respondTo m.uid reply).1 = true ∧
     ((q1.respondTo m.uid reply).2.requestEnd m.uid).1 = some reply) ∧
    (∀ u' r', mapContains q1.responseMap u' = false →
      q1.respondTo u' r' = (false, q1)) ∧
    (∀ u', u' ≠ m.uid →
      mapFind ((q1.respondTo m.uid reply).2).responseMap u'
        = mapFind q1.responseMap u') ∧
    ((q1.respondTo m.uid reply).2.requestEnd m.uid).2.respondTo m.uid reply
      = (false, ((q1.respondTo m.uid reply).2.requestEnd m.uid).2) := by
  obtain ⟨hc, hs, hm, hlt⟩ := requestBegin_some q q1 m hbegin
  have hcontains : mapContains q1.responseMap m.uid = true := by
    rw [hm]
    exact mapContains_append_self _ _ _
  refine ⟨⟨?_, ?_⟩, ?_, ?_, ?_⟩
  · simp [CircularQueue.respondTo, hcontains]
  · have hset : mapFind ((q1.respondTo m.uid reply).2).responseMap m.uid
        = some (Request.fulfill reply) := by
      simp [CircularQueue.respondTo, hcontains, mapFind_mapSet_self _ _ _ hcontains]
    simp [CircularQueue.requestEnd, hset, Request.fulfill]
  · intro u' r' hu
    simp [CircularQueue.respondTo, hu]
  · intro u' hu
    simp [CircularQueue.respondTo, hcontains, mapFind_mapSet_ne _ _ _ _ hu]
  · have he : mapContains
        ((q1.respondTo m.uid reply).2.requestEnd m.uid).2.responseMap m.uid
        = false := by
      simp [CircularQueue.requestEnd, mapContains_mapErase_self]
    exact respondTo_of_not_contains _ _ _ he

theorem claim_C1_request_response_correlation_witness :
    (({ capacity := 1, storage := [{ uid := 7, payload := 0 }], responseMap := [(7, Request.fresh)] } : CircularQueue).respondTo 7 { uid := 8, payload := 1 }).1
      = true :=
  (claim_C1_request_response_correlation
    { capacity := 1, storage := [], responseMap := [] } _
    { uid := 7, payload := 0 } { uid := 8, payload := 1 } rfl (by decide)).1.1

end PolyM
